import Mathlib

/-!
Verification of the tiles-maps tile-acquisition pipeline.

The JavaScript source is shallowly embedded: pure functions become Lean
functions, the stateful acquisition loop becomes explicit state passing
over a `RunState`, file-system effects become an explicit operation list,
and fallible operations are parametrised by an oracle describing the
outcome of each network fetch.  JavaScript 32-bit bitwise semantics
(`<<`, `&`) are modelled with explicit `% 2 ^ 32` reductions on `Nat`.
-/

namespace TilesMaps

/-! ## Quad-key computation (src/index.js, `quadKey`, lines 416-426)

The JS loop runs `i` from `z` down to `1`; `mask = 1 << (i - 1)` is a
32-bit shift (shift count reduced mod 32), and `x & mask` tests bit
`(i - 1) % 32` of `x mod 2^32`, since JS bitwise operators coerce their
operands to 32-bit integers. -/

/-- One digit of the quad key for loop index `i` (JS: `digit = 0; if (x & mask) digit += 1; if (y & mask) digit += 2` with `mask = 1 << (i-1)` under 32-bit semantics). -/
def quadKeyDigit (x y i : Nat) : Nat :=
  (if Nat.testBit (x % 2 ^ 32) ((i - 1) % 32) then 1 else 0) +
  (if Nat.testBit (y % 2 ^ 32) ((i - 1) % 32) then 2 else 0)

/-- The loop of `quadKey`: produces the digits for loop index `i` down to `1`, most significant first, as the JS `key += digit` string concatenation does. -/
def quadKeyLoop (x y : Nat) : Nat → List Char
  | 0 => []
  | i + 1 => (Nat.digitChar (quadKeyDigit x y (i + 1))) :: quadKeyLoop x y i

/-- `quadKey(x, y, z)` from src/index.js: the base-4 string of `z` digits built by testing the bits of `x` and `y` from position `z-1` down to `0` under JS 32-bit semantics. -/
def quadKey (x y z : Nat) : List Char :=
  quadKeyLoop x y z

/-- The quad key as the SPEC describes it: digit for bit position `i`
(from `i = z-1` down to `i = 0`) is `bit_i(x) + 2*bit_i(y)`, with no
32-bit reduction.  Used to compare the source's `quadKey` against the
spec's formula. -/
def quadKeySpecDigit (x y i : Nat) : Nat :=
  (if Nat.testBit x i then 1 else 0) + (if Nat.testBit y i then 2 else 0)

/-- Spec-side quad key: the `z` digits for bit positions `z-1` down to `0`. -/
def quadKeySpec (x y : Nat) : Nat → List Char
  | 0 => []
  | i + 1 => (Nat.digitChar (quadKeySpecDigit x y i)) :: quadKeySpec x y i

lemma quadKeyDigit_lt_four (x y i : Nat) : quadKeyDigit x y i < 4 := by
  unfold quadKeyDigit
  split <;> split <;> simp

lemma quadKeyLoop_length (x y z : Nat) : (quadKeyLoop x y z).length = z := by
  induction z with
  | zero => rfl
  | succ n ih => simp [quadKeyLoop, ih]

lemma quadKeyDigit_eq_spec (x y i : Nat) (hx : x < 2 ^ 32) (hy : y < 2 ^ 32)
    (hi : 1 ≤ i) (hiub : i ≤ 32) : quadKeyDigit x y i = quadKeySpecDigit x y (i - 1) := by
  have hmod : (i - 1) % 32 = i - 1 := Nat.mod_eq_of_lt (by omega)
  have hxm : x % 2 ^ 32 = x := Nat.mod_eq_of_lt hx
  have hym : y % 2 ^ 32 = y := Nat.mod_eq_of_lt hy
  unfold quadKeyDigit quadKeySpecDigit
  rw [hmod, hxm, hym]

lemma quadKeyLoop_eq_spec (x y : Nat) (hx : x < 2 ^ 32) (hy : y < 2 ^ 32) :
    ∀ z, z ≤ 32 → quadKeyLoop x y z = quadKeySpec x y z := by
  intro z
  induction z with
  | zero => intro _; rfl
  | succ n ih =>
    intro hz
    have h1 : quadKeyDigit x y (n + 1) = quadKeySpecDigit x y n := by
      have := quadKeyDigit_eq_spec x y (n + 1) hx hy (by omega) (by omega)
      simpa using this
    simp [quadKeyLoop, quadKeySpec, h1, ih (by omega)]

/-! ## Batch scheduling (src/index.js, `downloadTilesForZoom` lines 276-304 and
`downloadTilesParallel` lines 134-161)

The JS loops push a task closure per in-bounds coordinate into
`tilePromises`; whenever the array reaches `maxThreads` entries the whole
group is started together with `Promise.all` and awaited before any
further coordinate is enumerated (`tilePromises.length = 0`); a final
partial group is run after the loops.  `batchLoop` embeds exactly this
push-then-flush discipline, returning the batches in dispatch order. -/

/-- The push-then-flush accumulation of `downloadTilesForZoom`: `pending`
is the current `tilePromises` array, `rest` the coordinates not yet
enumerated; a batch is emitted whenever `pending` reaches length `c`, and
a final non-empty `pending` is emitted at the end. -/
def batchLoop (c : Nat) : List α → List α → List (List α)
  | pending, [] => if pending.isEmpty then [] else [pending]
  | pending, t :: ts =>
    let p := pending ++ [t]
    if p.length = c then p :: batchLoop c [] ts else batchLoop c p ts

/-- The batches dispatched for a coordinate list under concurrency cap `c`. -/
def mkBatches (c : Nat) (coords : List α) : List (List α) :=
  batchLoop c [] coords

/-- Row-major enumeration of the in-bounds tiles of zoom level `z`
(src/index.js lines 276-278: `for x ... for y ... if (!bounds || isTileInBounds(...))`),
with the bounds test abstracted as a boolean predicate `inB`. -/
def enumTiles (z : Nat) (inB : Nat → Nat → Bool) : List (Nat × Nat) :=
  (List.range (2 ^ z)).flatMap fun x =>
    ((List.range (2 ^ z)).filter fun y => inB x y).map fun y => (x, y)

lemma batchLoop_join (c : Nat) (rest : List α) :
    ∀ pending : List α, (batchLoop c pending rest).flatten = pending ++ rest := by
  induction rest with
  | nil =>
    intro pending
    by_cases h : pending.isEmpty
    · simp [batchLoop, h, List.isEmpty_iff.mp h]
    · simp [batchLoop, h]
  | cons t ts ih =>
    intro pending
    unfold batchLoop
    by_cases h : pending.length + 1 = c
    · simp [h, ih]
    · simp [h, ih]

lemma batchLoop_mem_length (c : Nat) (hc : 1 ≤ c) (rest : List α) :
    ∀ pending : List α, pending.length < c →
      ∀ b ∈ batchLoop c pending rest, b ≠ [] ∧ b.length ≤ c := by
  induction rest with
  | nil =>
    intro pending hlt b hb
    unfold batchLoop at hb
    by_cases h : pending.isEmpty
    · simp [h] at hb
    · simp [h] at hb
      subst hb
      exact ⟨fun hn => h (by simp [hn]), Nat.le_of_lt hlt⟩
  | cons t ts ih =>
    intro pending hlt b hb
    unfold batchLoop at hb
    by_cases h : (pending ++ [t]).length = c
    · simp only [h, if_true] at hb
      rcases List.mem_cons.mp hb with rfl | hb
      · refine ⟨by simp, by omega⟩
      · exact ih [] (by simpa using hc) b hb
    · simp only [h, if_false] at hb
      have hlen : (pending ++ [t]).length < c := by
        simp only [List.length_append, List.length_cons, List.length_nil] at h ⊢
        omega
      exact ih _ hlen b hb

lemma batchLoop_dropLast_length (c : Nat) (rest : List α) :
    ∀ pending : List α, ∀ b ∈ (batchLoop c pending rest).dropLast, b.length = c := by
  induction rest with
  | nil =>
    intro pending b hb
    unfold batchLoop at hb
    by_cases h : pending.isEmpty <;> simp [h] at hb
  | cons t ts ih =>
    intro pending b hb
    unfold batchLoop at hb
    by_cases h : (pending ++ [t]).length = c
    · simp only [h, if_true] at hb
      rcases List.eq_nil_or_concat (batchLoop c [] ts) with hnil | ⟨l, a, hl⟩
      · rw [hnil] at hb
        simp at hb
      · rw [List.concat_eq_append] at hl
        rw [hl, ← List.cons_append, List.dropLast_concat] at hb
        rcases List.mem_cons.mp hb with rfl | hb2
        · exact h
        · apply ih []
          rw [hl, List.dropLast_concat]
          exact hb2
    · simp only [h, if_false] at hb
      exact ih _ b hb

/-! ## Provider registry (src/index.js, `TileProviderFactory.create`, lines 352-367)

The factory's `switch` maps a provider name to a provider instance and
throws `Provider "..." is not supported` otherwise; embedded as an
`Except`.  The constructor argument is the `langParam` each provider
bakes in (`lang ? '&hl=' + lang : ''` for Google, `lang ? '&lang=' + lang : ''`
for Yandex). -/

inductive Provider where
  | google (langParam : String)
  | yandex (langParam : String)
  | osm
  | bing
deriving DecidableEq

/-- `TileProviderFactory.create(providerName, lang)`: the `switch` over the
provider name; unknown names throw. -/
def TileProviderFactory.create (providerName : String) (lang : Option String) :
    Except String Provider :=
  if providerName = "google" then
    .ok (.google (match lang with | some l => "&hl=" ++ l | none => ""))
  else if providerName = "yandex" then
    .ok (.yandex (match lang with | some l => "&lang=" ++ l | none => ""))
  else if providerName = "osm" then
    .ok .osm
  else if providerName = "bing" then
    .ok .bing
  else
    .error ("Provider \x22" ++ providerName ++ "\x22 is not supported")

/-- `getTileUrl` of each provider class (src/index.js lines 370-413). -/
def Provider.getTileUrl (p : Provider) (x y z : Nat) : String :=
  match p with
  | .google langParam =>
    "https://mt.google.com/vt/lyrs=y&x=" ++ Nat.repr x ++ "&y=" ++ Nat.repr y ++
      "&z=" ++ Nat.repr z ++ langParam
  | .yandex langParam =>
    "https://core-renderer-tiles.maps.yandex.net/tiles?l=sat&x=" ++ Nat.repr x ++
      "&y=" ++ Nat.repr y ++ "&z=" ++ Nat.repr z ++ langParam
  | .osm =>
    "https://tile.openstreetmap.org/" ++ Nat.repr z ++ "/" ++ Nat.repr x ++ "/" ++
      Nat.repr y ++ ".png"
  | .bing =>
    "https://ecn.t" ++ Nat.repr ((x + y) % 4) ++ ".tiles.virtualearth.net/tiles/a" ++
      (quadKey x y z).asString ++ ".png?g=1"

/-! ## Failure-ledger line encoding

`downloadTilesForZoom` appends `` `${name},${z},${x},${y},${lang}\n` ``
(src/index.js line 288); `downloadTilesParallel` appends
`` `${name},${z},${x},${y}\n` `` (line 146), the same four-field shape as
`logFailedTile` in src/unnamed/part_001 (lines 50-54).  Lines are
modelled as their character lists (one list per `\n`-terminated line). -/

/-- Decimal character rendering of a `Nat` (JS template-string interpolation). -/
def natChars (n : Nat) : List Char :=
  (Nat.repr n).data

/-- The five-field ledger line of `downloadTilesForZoom`: `provider,z,x,y,lang`. -/
def lineForZoom (provider : String) (z x y : Nat) (lang : String) : List Char :=
  provider.data ++ ',' :: (natChars z ++ ',' :: (natChars x ++ ',' :: (natChars y ++ ',' :: lang.data)))

/-- The four-field ledger line of `downloadTilesParallel` and of
`logFailedTile` (src/unnamed/part_001): `provider,z,x,y`, no locale. -/
def lineParallel (provider : String) (z x y : Nat) : List Char :=
  provider.data ++ ',' :: (natChars z ++ ',' :: (natChars x ++ ',' :: natChars y))

/-! ## Acquisition run state

One zoom-level pass of the scheduler, with the network (and the disk
write that immediately follows it — the source's `catch` does not
distinguish the two) abstracted as an oracle `fetch : coordinate →
Option bytes`; `none` means the fetch-and-store of that tile failed.
`fetches`, `attempted` and `progressLog` are observation-only fields
recording the number of network calls issued, the coordinates whose task
closures ran, and the emitted `(completedTiles, totalTiles)` progress
reports; the source's control flow never reads them. -/

/-- Tile bytes (the `arraybuffer` response body). -/
abbrev Bytes := List Nat

/-- Store key: `(provider, zoom, x, y)`, the components of the on-disk
path `tiles/<provider>/<z>/<x>/<y>.png`. -/
abbrev StoreKey := String × Nat × Nat × Nat

structure RunState where
  /-- The tile store: on-disk files keyed by `(provider, z, x, y)`.  Presence
  of a key is what `fs.existsSync(outputFile)` reports. -/
  store : List (StoreKey × Bytes)
  /-- Lines of `failed_tiles.log`, in append order. -/
  ledger : List (List Char)
  /-- `completedTiles` (local to one zoom pass). -/
  completed : Nat
  /-- `totalTiles` (local to one zoom pass). -/
  total : Nat
  /-- Observation: number of network fetches issued. -/
  fetches : Nat
  /-- Observation: coordinates whose task closure ran, in dispatch order. -/
  attempted : List (Nat × Nat)
  /-- Observation: emitted progress reports `(completedTiles, totalTiles)`. -/
  progressLog : List (Nat × Nat)
deriving DecidableEq

/-- The task closure pushed for one coordinate by `downloadTilesForZoom`
(src/index.js lines 279-291): `saveTile` skips when the file exists,
otherwise fetches and writes; on success the completed counter is
incremented and a progress report emitted; on failure the five-field
line is appended to `failed_tiles.log`. -/
def tileTask (provider lang : String) (z : Nat) (fetch : Nat × Nat → Option Bytes)
    (st : RunState) (c : Nat × Nat) : RunState :=
  let key : StoreKey := (provider, z, c.1, c.2)
  if (st.store.lookup key).isSome then
    -- saveTile returns early (`Tile already exists`): no fetch, no write,
    -- then `completedTiles++` and a progress report in the closure
    { st with completed := st.completed + 1,
              attempted := st.attempted ++ [c],
              progressLog := st.progressLog ++ [(st.completed + 1, st.total)] }
  else
    match fetch c with
    | some bytes =>
      { st with store := st.store ++ [(key, bytes)],
                fetches := st.fetches + 1,
                completed := st.completed + 1,
                attempted := st.attempted ++ [c],
                progressLog := st.progressLog ++ [(st.completed + 1, st.total)] }
    | none =>
      -- `catch`: append `${name},${z},${x},${y},${lang}\n` and continue
      { st with fetches := st.fetches + 1,
                ledger := st.ledger ++ [lineForZoom provider z c.1 c.2 lang],
                attempted := st.attempted ++ [c] }

/-- The task closure of `downloadTilesParallel` (src/index.js lines
137-148): identical control flow, but the ledger line has no locale
field. -/
def tileTaskParallel (provider : String) (z : Nat) (fetch : Nat × Nat → Option Bytes)
    (st : RunState) (c : Nat × Nat) : RunState :=
  let key : StoreKey := (provider, z, c.1, c.2)
  if (st.store.lookup key).isSome then
    { st with completed := st.completed + 1,
              attempted := st.attempted ++ [c],
              progressLog := st.progressLog ++ [(st.completed + 1, st.total)] }
  else
    match fetch c with
    | some bytes =>
      { st with store := st.store ++ [(key, bytes)],
                fetches := st.fetches + 1,
                completed := st.completed + 1,
                attempted := st.attempted ++ [c],
                progressLog := st.progressLog ++ [(st.completed + 1, st.total)] }
    | none =>
      { st with fetches := st.fetches + 1,
                ledger := st.ledger ++ [lineParallel provider z c.1 c.2],
                attempted := st.attempted ++ [c] }

/-- `downloadTilesForZoom` (src/index.js lines 259-307): count the
in-bounds tiles into `totalTiles`, reset `completedTiles` to 0, then run
the batched dispatch — each batch's closures are started together by
`Promise.all` and the whole batch is awaited before the next batch
starts.  Within a batch the closures' effects are folded in dispatch
order (the barrier makes any interleaving of the per-tile atomic effects
yield the same final state for the recorded observations). -/
def downloadTilesForZoom (provider lang : String) (z : Nat) (inB : Nat → Nat → Bool)
    (maxThreads : Nat) (fetch : Nat × Nat → Option Bytes) (st : RunState) : RunState :=
  let coords := enumTiles z inB
  let st0 := { st with total := coords.length, completed := 0 }
  (mkBatches maxThreads coords).foldl
    (fun s batch => batch.foldl (tileTask provider lang z fetch) s) st0

/-- `downloadTilesParallel` (src/index.js lines 121-161): the first
variant's scheduler, same batching discipline, four-field ledger lines. -/
def downloadTilesParallel (provider : String) (z : Nat) (inB : Nat → Nat → Bool)
    (maxThreads : Nat) (fetch : Nat × Nat → Option Bytes) (st : RunState) : RunState :=
  let coords := enumTiles z inB
  let st0 := { st with total := coords.length, completed := 0 }
  (mkBatches maxThreads coords).foldl
    (fun s batch => batch.foldl (tileTaskParallel provider z fetch) s) st0

/-! ## Helper lemmas -/

lemma foldl_flatten (f : β → α → β) (ls : List (List α)) :
    ∀ b : β, ls.foldl (fun s l => l.foldl f s) b = ls.flatten.foldl f b := by
  induction ls with
  | nil => intro b; rfl
  | cons l ls ih => intro b; simp [List.foldl_append, ih]

lemma lookup_append_of_some [BEq α] {l₁ : List (α × β)} {k : α} {b : β}
    (h : l₁.lookup k = some b) (l₂ : List (α × β)) : (l₁ ++ l₂).lookup k = some b := by
  induction l₁ with
  | nil => simp [List.lookup] at h
  | cons p l₁ ih =>
    rw [List.lookup] at h
    show List.lookup k (p :: (l₁ ++ l₂)) = some b
    rw [List.lookup]
    split at h <;> simp_all [ih]

lemma lookup_append_of_none [BEq α] {l₁ : List (α × β)} {k : α}
    (h : l₁.lookup k = none) (l₂ : List (α × β)) : (l₁ ++ l₂).lookup k = l₂.lookup k := by
  induction l₁ with
  | nil => simp
  | cons p l₁ ih =>
    rw [List.lookup] at h
    rw [List.cons_append, List.lookup]
    split at h
    · exact absurd h (by simp)
    · simp_all [ih]

lemma lookup_single_ne [BEq α] [LawfulBEq α] {k k' : α} (h : k ≠ k') (b : β) :
    ([(k', b)] : List (α × β)).lookup k = none := by
  have hb : (k == k') = false := beq_eq_false_iff_ne.mpr h
  simp [List.lookup, hb]

/-- The batch barrier makes the batched dispatch equal to the sequential
fold over the enumeration. -/
lemma downloadTilesForZoom_eq_foldl (provider lang : String) (z : Nat)
    (inB : Nat → Nat → Bool) (maxThreads : Nat) (fetch : Nat × Nat → Option Bytes)
    (st : RunState) :
    downloadTilesForZoom provider lang z inB maxThreads fetch st =
      (enumTiles z inB).foldl (tileTask provider lang z fetch)
        { st with total := (enumTiles z inB).length, completed := 0 } := by
  show (mkBatches maxThreads (enumTiles z inB)).foldl
      (fun s batch => batch.foldl (tileTask provider lang z fetch) s) _ = _
  rw [foldl_flatten]
  have hj : (mkBatches maxThreads (enumTiles z inB)).flatten = enumTiles z inB := by
    simpa [mkBatches] using batchLoop_join maxThreads (enumTiles z inB) []
  rw [hj]

/-! ## Claim theorems -/

/-- C1: for every acquisition run with concurrency cap `c ≥ 1` and every
zoom level, the in-bounds coordinates are dispatched in enumeration order
in batches of exactly `c` items (the final batch may be smaller, and is
never empty); at most `c` fetch+store operations are in flight at any
instant (each batch has at most `c` items and batches are separated by
the `Promise.all` barrier, so no item of a batch starts before every item
of the previous batch has settled); and the batched run equals the
sequential fold over the enumeration. -/
theorem C1_batch_dispatch (z : Nat) (inB : Nat → Nat → Bool) (c : Nat) (hc : 1 ≤ c) :
    (mkBatches c (enumTiles z inB)).flatten = enumTiles z inB
    ∧ (∀ b ∈ (mkBatches c (enumTiles z inB)).dropLast, b.length = c)
    ∧ (∀ b ∈ mkBatches c (enumTiles z inB), b ≠ [] ∧ b.length ≤ c)
    ∧ (∀ provider lang fetch st,
        downloadTilesForZoom provider lang z inB c fetch st =
          (enumTiles z inB).foldl (tileTask provider lang z fetch)
            { st with total := (enumTiles z inB).length, completed := 0 }) := by
  refine ⟨?_, ?_, ?_, ?_⟩
  · simpa [mkBatches] using batchLoop_join c (enumTiles z inB) []
  · intro b hb
    exact batchLoop_dropLast_length c _ [] b hb
  · intro b hb
    exact batchLoop_mem_length c hc _ [] (by simpa using hc) b hb
  · intro provider lang fetch st
    exact downloadTilesForZoom_eq_foldl provider lang z inB c fetch st

/-- Witness for C1 at `c = 2`, zoom `1`, full-planet bounds test. -/
theorem C1_batch_dispatch_witness :
    (mkBatches 2 (enumTiles 1 fun _ _ => true)).flatten = enumTiles 1 (fun _ _ => true)
    ∧ (∀ b ∈ (mkBatches 2 (enumTiles 1 fun _ _ => true)).dropLast, b.length = 2)
    ∧ (∀ b ∈ mkBatches 2 (enumTiles 1 fun _ _ => true), b ≠ [] ∧ b.length ≤ 2)
    ∧ (∀ provider lang fetch st,
        downloadTilesForZoom provider lang 1 (fun _ _ => true) 2 fetch st =
          (enumTiles 1 fun _ _ => true).foldl (tileTask provider lang 1 fetch)
            { st with total := (enumTiles 1 fun _ _ => true).length, completed := 0 }) :=
  C1_batch_dispatch 1 (fun _ _ => true) 2 (by decide)

/-! ## Per-tile error recovery (C3) -/

/-- `true` iff `TileProviderFactory.create` resolves the name (does not throw). -/
def createOk (name : String) (lg : Option String) : Bool :=
  match TileProviderFactory.create name lg with
  | .ok _ => true
  | .error _ => false

lemma tileTask_attempted (provider lang : String) (z : Nat) (fetch : Nat × Nat → Option Bytes)
    (st : RunState) (c : Nat × Nat) :
    (tileTask provider lang z fetch st c).attempted = st.attempted ++ [c] := by
  by_cases h : (st.store.lookup (provider, z, c.1, c.2)).isSome
  · simp [tileTask, h]
  · cases hf : fetch c <;> simp [tileTask, h, hf]

lemma tileTask_ledger_cases (provider lang : String) (z : Nat)
    (fetch : Nat × Nat → Option Bytes) (st : RunState) (c : Nat × Nat) :
    (tileTask provider lang z fetch st c).ledger = st.ledger
    ∨ (tileTask provider lang z fetch st c).ledger
        = st.ledger ++ [lineForZoom provider z c.1 c.2 lang] := by
  by_cases h : (st.store.lookup (provider, z, c.1, c.2)).isSome
  · simp [tileTask, h]
  · cases hf : fetch c <;> simp [tileTask, h, hf]

lemma tileTask_ledger_grows (provider lang : String) (z : Nat)
    (fetch : Nat × Nat → Option Bytes) (st : RunState) (c : Nat × Nat) :
    st.ledger <+: (tileTask provider lang z fetch st c).ledger := by
  rcases tileTask_ledger_cases provider lang z fetch st c with h | h
  · rw [h]
  · rw [h]
    exact List.prefix_append _ _

lemma foldl_ledger_grows (provider lang : String) (z : Nat)
    (fetch : Nat × Nat → Option Bytes) (coords : List (Nat × Nat)) :
    ∀ st : RunState, st.ledger <+: (coords.foldl (tileTask provider lang z fetch) st).ledger := by
  induction coords with
  | nil => intro st; exact List.prefix_rfl
  | cons c cs ih =>
    intro st
    exact (tileTask_ledger_grows provider lang z fetch st c).trans (ih _)

lemma foldl_attempted (provider lang : String) (z : Nat) (fetch : Nat × Nat → Option Bytes)
    (coords : List (Nat × Nat)) :
    ∀ st : RunState,
      (coords.foldl (tileTask provider lang z fetch) st).attempted = st.attempted ++ coords := by
  induction coords with
  | nil => intro st; simp
  | cons c cs ih =>
    intro st
    rw [List.foldl_cons, ih, tileTask_attempted, List.append_assoc]
    rfl

lemma tileTask_store_none (provider lang : String) (z : Nat)
    (fetch : Nat × Nat → Option Bytes) (st : RunState) (c xy : Nat × Nat)
    (hfail : fetch xy = none)
    (hmiss : st.store.lookup (provider, z, xy.1, xy.2) = none) :
    (tileTask provider lang z fetch st c).store.lookup (provider, z, xy.1, xy.2) = none := by
  by_cases h : (st.store.lookup (provider, z, c.1, c.2)).isSome
  · simpa [tileTask, h] using hmiss
  · cases hf : fetch c with
    | none => simpa [tileTask, h, hf] using hmiss
    | some bytes =>
      have hne : c ≠ xy := by
        intro he
        rw [he, hfail] at hf
        exact Option.noConfusion hf
      have hkey : ((provider, z, xy.1, xy.2) : StoreKey) ≠ (provider, z, c.1, c.2) := by
        intro he
        apply hne
        have h1 := congrArg (fun k : StoreKey => k.2.2.1) he
        have h2 := congrArg (fun k : StoreKey => k.2.2.2) he
        simp at h1 h2
        exact Prod.ext h1.symm h2.symm
      have : (tileTask provider lang z fetch st c).store
          = st.store ++ [(((provider, z, c.1, c.2) : StoreKey), bytes)] := by
        simp [tileTask, h, hf]
      rw [this, lookup_append_of_none hmiss, lookup_single_ne hkey]

lemma foldl_failed_in_ledger (provider lang : String) (z : Nat)
    (fetch : Nat × Nat → Option Bytes) (coords : List (Nat × Nat)) :
    ∀ st : RunState, ∀ xy ∈ coords,
      st.store.lookup (provider, z, xy.1, xy.2) = none → fetch xy = none →
      lineForZoom provider z xy.1 xy.2 lang
        ∈ (coords.foldl (tileTask provider lang z fetch) st).ledger := by
  induction coords with
  | nil => intro st xy h; simp at h
  | cons c cs ih =>
    intro st xy hxy hmiss hfail
    rw [List.foldl_cons]
    rcases List.mem_cons.mp hxy with rfl | hmem
    · have hline : lineForZoom provider z xy.1 xy.2 lang
          ∈ (tileTask provider lang z fetch st xy).ledger := by
        simp [tileTask, hmiss, hfail]
      exact (foldl_ledger_grows provider lang z fetch cs _).subset hline
    · exact ih _ xy hmem (tileTask_store_none provider lang z fetch st c xy hfail hmiss) hfail

/-- C3: a fetch-or-store error on one tile appends that tile's five-field
coordinate line to the failure ledger and never prevents any other
enumerated tile from being attempted: the run attempts exactly the full
in-bounds enumeration no matter which tiles fail, and the whole pass is a
total function of the oracle (it cannot terminate early).  Only an
unknown provider name makes `TileProviderFactory.create` throw. -/
theorem C3_per_tile_error_recovery (provider lang : String) (z : Nat)
    (inB : Nat → Nat → Bool) (maxThreads : Nat) (fetch : Nat × Nat → Option Bytes)
    (st : RunState) (xy : Nat × Nat) (hxy : xy ∈ enumTiles z inB)
    (hmiss : st.store.lookup (provider, z, xy.1, xy.2) = none)
    (hfail : fetch xy = none) :
    (downloadTilesForZoom provider lang z inB maxThreads fetch st).attempted
        = st.attempted ++ enumTiles z inB
    ∧ lineForZoom provider z xy.1 xy.2 lang
        ∈ (downloadTilesForZoom provider lang z inB maxThreads fetch st).ledger
    ∧ (∀ name lg, createOk name lg = true
        ↔ (name = "google" ∨ name = "yandex" ∨ name = "osm" ∨ name = "bing")) := by
  have hrw := downloadTilesForZoom_eq_foldl provider lang z inB maxThreads fetch st
  refine ⟨?_, ?_, ?_⟩
  · rw [hrw, foldl_attempted]
  · rw [hrw]
    exact foldl_failed_in_ledger provider lang z fetch (enumTiles z inB) _ xy hxy hmiss hfail
  · intro name lg
    unfold createOk TileProviderFactory.create
    split_ifs with h1 h2 h3 h4 <;> simp_all

/-- Witness for C3: zoom 0, full bounds, every fetch failing. -/
theorem C3_per_tile_error_recovery_witness :
    (downloadTilesForZoom "google" "ru" 0 (fun _ _ => true) 6 (fun _ => none)
        (RunState.mk [] [] 0 0 0 [] [])).attempted
        = [] ++ enumTiles 0 (fun _ _ => true)
    ∧ lineForZoom "google" 0 0 0 "ru"
        ∈ (downloadTilesForZoom "google" "ru" 0 (fun _ _ => true) 6 (fun _ => none)
            (RunState.mk [] [] 0 0 0 [] [])).ledger
    ∧ (∀ name lg, createOk name lg = true
        ↔ (name = "google" ∨ name = "yandex" ∨ name = "osm" ∨ name = "bing")) :=
  C3_per_tile_error_recovery "google" "ru" 0 (fun _ _ => true) 6 (fun _ => none)
    (RunState.mk [] [] 0 0 0 [] []) (0, 0) (by decide) rfl rfl

/-! ## Idempotence and store monotonicity (C4) -/

lemma lookup_single_self [BEq α] [LawfulBEq α] (k : α) (b : β) :
    ([(k, b)] : List (α × β)).lookup k = some b := by
  simp [List.lookup]

lemma tileTask_store_some_mono (provider lang : String) (z : Nat)
    (fetch : Nat × Nat → Option Bytes) (st : RunState) (c : Nat × Nat)
    {k : StoreKey} {b : Bytes} (h : st.store.lookup k = some b) :
    (tileTask provider lang z fetch st c).store.lookup k = some b := by
  by_cases hc : (st.store.lookup (provider, z, c.1, c.2)).isSome
  · simpa [tileTask, hc] using h
  · cases hf : fetch c with
    | none => simpa [tileTask, hc, hf] using h
    | some bytes =>
      have hst : (tileTask provider lang z fetch st c).store
          = st.store ++ [(((provider, z, c.1, c.2) : StoreKey), bytes)] := by
        simp [tileTask, hc, hf]
      rw [hst]
      exact lookup_append_of_some h _

lemma foldl_store_some_mono (provider lang : String) (z : Nat)
    (fetch : Nat × Nat → Option Bytes) (coords : List (Nat × Nat)) :
    ∀ st : RunState, ∀ k : StoreKey, ∀ b : Bytes, st.store.lookup k = some b →
      ((coords.foldl (tileTask provider lang z fetch) st).store.lookup k = some b) := by
  induction coords with
  | nil => intro st k b h; exact h
  | cons c cs ih =>
    intro st k b h
    rw [List.foldl_cons]
    exact ih _ k b (tileTask_store_some_mono provider lang z fetch st c h)

lemma foldl_all_cached (provider lang : String) (z : Nat)
    (fetch : Nat × Nat → Option Bytes) (coords : List (Nat × Nat)) :
    ∀ st : RunState,
      (∀ xy ∈ coords, (st.store.lookup (provider, z, xy.1, xy.2)).isSome) →
      (coords.foldl (tileTask provider lang z fetch) st).store = st.store
      ∧ (coords.foldl (tileTask provider lang z fetch) st).fetches = st.fetches := by
  induction coords with
  | nil => intro st _; exact ⟨rfl, rfl⟩
  | cons c cs ih =>
    intro st hall
    have hc := hall c (List.mem_cons_self c cs)
    have hstore : (tileTask provider lang z fetch st c).store = st.store := by
      simp [tileTask, hc]
    have hfetches : (tileTask provider lang z fetch st c).fetches = st.fetches := by
      simp [tileTask, hc]
    rw [List.foldl_cons]
    have hrest := ih (tileTask provider lang z fetch st c)
      (fun xy hxy => by rw [hstore]; exact hall xy (List.mem_cons_of_mem _ hxy))
    exact ⟨by rw [hrest.1, hstore], by rw [hrest.2, hfetches]⟩

lemma foldl_covers (provider lang : String) (z : Nat)
    (fetch : Nat × Nat → Option Bytes) (coords : List (Nat × Nat)) :
    ∀ st : RunState, ∀ xy ∈ coords, (fetch xy).isSome →
      ((coords.foldl (tileTask provider lang z fetch) st).store.lookup
        (provider, z, xy.1, xy.2)).isSome := by
  induction coords with
  | nil => intro st xy h; simp at h
  | cons c cs ih =>
    intro st xy hxy hsucc
    rw [List.foldl_cons]
    rcases List.mem_cons.mp hxy with rfl | hmem
    · have hsome : ∃ b, (tileTask provider lang z fetch st xy).store.lookup
          (provider, z, xy.1, xy.2) = some b := by
        by_cases hc : (st.store.lookup (provider, z, xy.1, xy.2)).isSome
        · rcases Option.isSome_iff_exists.mp hc with ⟨b, hb⟩
          exact ⟨b, by simpa [tileTask, hc] using hb⟩
        · rcases Option.isSome_iff_exists.mp hsucc with ⟨bytes, hb⟩
          refine ⟨bytes, ?_⟩
          have hnone := Option.not_isSome_iff_eq_none.mp hc
          have hst : (tileTask provider lang z fetch st xy).store
              = st.store ++ [(((provider, z, xy.1, xy.2) : StoreKey), bytes)] := by
            simp [tileTask, hc, hb]
          rw [hst, lookup_append_of_none hnone, lookup_single_self]
      rcases hsome with ⟨b, hb⟩
      exact Option.isSome_iff_exists.mpr
        ⟨b, foldl_store_some_mono provider lang z fetch cs _ _ b hb⟩
    · exact ih _ xy hmem hsucc

/-- C4: acquisition is idempotent and the store grows monotonically:
every tile already cached keeps its exact bytes across any run (no run
removes or overwrites an existing tile file); a run over a fully cached
enumeration performs zero network fetches and leaves the store
untouched; and when every fetch of a run succeeds, repeating the run
with identical parameters issues zero fetches and leaves the store
byte-identical. -/
theorem C4_idempotent_monotone_store (provider lang : String) (z : Nat)
    (inB : Nat → Nat → Bool) (maxThreads : Nat) (fetch : Nat × Nat → Option Bytes)
    (st : RunState) :
    (∀ k b, st.store.lookup k = some b →
      (downloadTilesForZoom provider lang z inB maxThreads fetch st).store.lookup k = some b)
    ∧ ((∀ xy ∈ enumTiles z inB, (st.store.lookup (provider, z, xy.1, xy.2)).isSome) →
        (downloadTilesForZoom provider lang z inB maxThreads fetch st).store = st.store
        ∧ (downloadTilesForZoom provider lang z inB maxThreads fetch st).fetches = st.fetches)
    ∧ ((∀ xy ∈ enumTiles z inB, (fetch xy).isSome) →
        (downloadTilesForZoom provider lang z inB maxThreads fetch
            (downloadTilesForZoom provider lang z inB maxThreads fetch st)).store
          = (downloadTilesForZoom provider lang z inB maxThreads fetch st).store
        ∧ (downloadTilesForZoom provider lang z inB maxThreads fetch
            (downloadTilesForZoom provider lang z inB maxThreads fetch st)).fetches
          = (downloadTilesForZoom provider lang z inB maxThreads fetch st).fetches) := by
  refine ⟨?_, ?_, ?_⟩
  · intro k b h
    rw [downloadTilesForZoom_eq_foldl]
    exact foldl_store_some_mono provider lang z fetch (enumTiles z inB) _ k b h
  · intro hcached
    rw [downloadTilesForZoom_eq_foldl]
    exact foldl_all_cached provider lang z fetch (enumTiles z inB) _ hcached
  · intro hsucc
    have hcov : ∀ xy ∈ enumTiles z inB,
        ((downloadTilesForZoom provider lang z inB maxThreads fetch st).store.lookup
          (provider, z, xy.1, xy.2)).isSome := by
      intro xy hxy
      rw [downloadTilesForZoom_eq_foldl]
      exact foldl_covers provider lang z fetch (enumTiles z inB) _ xy hxy (hsucc xy hxy)
    rw [downloadTilesForZoom_eq_foldl provider lang z inB maxThreads fetch
      (downloadTilesForZoom provider lang z inB maxThreads fetch st)]
    exact foldl_all_cached provider lang z fetch (enumTiles z inB) _ hcov

/-- Witness for C4: zoom 0, one pre-cached tile, all fetches succeeding. -/
theorem C4_idempotent_monotone_store_witness :
    (downloadTilesForZoom "google" "ru" 0 (fun _ _ => true) 6 (fun _ => some [7])
        (RunState.mk [(("google", 0, 0, 0), [1, 2])] [] 0 0 0 [] [])).store.lookup
        ("google", 0, 0, 0) = some [1, 2]
    ∧ (downloadTilesForZoom "google" "ru" 0 (fun _ _ => true) 6 (fun _ => some [7])
        (RunState.mk [(("google", 0, 0, 0), [1, 2])] [] 0 0 0 [] [])).store
      = (RunState.mk ([(("google", 0, 0, 0), [1, 2])]) [] 0 0 0 [] []).store
    ∧ (downloadTilesForZoom "google" "ru" 0 (fun _ _ => true) 6 (fun _ => some [7])
        (downloadTilesForZoom "google" "ru" 0 (fun _ _ => true) 6 (fun _ => some [7])
          (RunState.mk [(("google", 0, 0, 0), [1, 2])] [] 0 0 0 [] []))).fetches
      = (downloadTilesForZoom "google" "ru" 0 (fun _ _ => true) 6 (fun _ => some [7])
          (RunState.mk [(("google", 0, 0, 0), [1, 2])] [] 0 0 0 [] [])).fetches := by
  have h := C4_idempotent_monotone_store "google" "ru" 0 (fun _ _ => true) 6
    (fun _ => some [7]) (RunState.mk [(("google", 0, 0, 0), [1, 2])] [] 0 0 0 [] [])
  exact ⟨h.1 ("google", 0, 0, 0) [1, 2] (by decide),
    (h.2.1 (by decide)).1, (h.2.2 (by decide)).2⟩

/-! ## Progress accounting (C5) -/

lemma tileTask_total (provider lang : String) (z : Nat) (fetch : Nat × Nat → Option Bytes)
    (st : RunState) (c : Nat × Nat) :
    (tileTask provider lang z fetch st c).total = st.total := by
  by_cases hc : (st.store.lookup (provider, z, c.1, c.2)).isSome
  · simp [tileTask, hc]
  · cases hf : fetch c <;> simp [tileTask, hc, hf]

lemma tileTask_progress_cases (provider lang : String) (z : Nat)
    (fetch : Nat × Nat → Option Bytes) (st : RunState) (c : Nat × Nat) :
    ((tileTask provider lang z fetch st c).completed = st.completed + 1
      ∧ (tileTask provider lang z fetch st c).progressLog
          = st.progressLog ++ [(st.completed + 1, st.total)]
      ∧ (tileTask provider lang z fetch st c).ledger = st.ledger)
    ∨ ((tileTask provider lang z fetch st c).completed = st.completed
      ∧ (tileTask provider lang z fetch st c).progressLog = st.progressLog
      ∧ (tileTask provider lang z fetch st c).ledger
          = st.ledger ++ [lineForZoom provider z c.1 c.2 lang]) := by
  by_cases hc : (st.store.lookup (provider, z, c.1, c.2)).isSome
  · exact Or.inl (by simp [tileTask, hc])
  · cases hf : fetch c
    · exact Or.inr (by simp [tileTask, hc, hf])
    · exact Or.inl (by simp [tileTask, hc, hf])

lemma foldl_total (provider lang : String) (z : Nat) (fetch : Nat × Nat → Option Bytes)
    (coords : List (Nat × Nat)) :
    ∀ st : RunState, (coords.foldl (tileTask provider lang z fetch) st).total = st.total := by
  induction coords with
  | nil => intro st; rfl
  | cons c cs ih =>
    intro st
    rw [List.foldl_cons, ih, tileTask_total]

lemma foldl_conserve (provider lang : String) (z : Nat) (fetch : Nat × Nat → Option Bytes)
    (coords : List (Nat × Nat)) :
    ∀ st : RunState,
      (coords.foldl (tileTask provider lang z fetch) st).completed
        + (coords.foldl (tileTask provider lang z fetch) st).ledger.length
      = st.completed + st.ledger.length + coords.length := by
  induction coords with
  | nil => intro st; rfl
  | cons c cs ih =>
    intro st
    rw [List.foldl_cons, ih]
    rcases tileTask_progress_cases provider lang z fetch st c with ⟨h1, _, h3⟩ | ⟨h1, _, h3⟩ <;>
      rw [h1, h3] <;> simp <;> omega

lemma foldl_completed_mono (provider lang : String) (z : Nat)
    (fetch : Nat × Nat → Option Bytes) (coords : List (Nat × Nat)) :
    ∀ st : RunState, st.completed ≤ (coords.foldl (tileTask provider lang z fetch) st).completed := by
  induction coords with
  | nil => intro st; exact Nat.le_refl _
  | cons c cs ih =>
    intro st
    rw [List.foldl_cons]
    refine Nat.le_trans ?_ (ih (tileTask provider lang z fetch st c))
    rcases tileTask_progress_cases provider lang z fetch st c with ⟨h1, _⟩ | ⟨h1, _⟩ <;> omega

lemma foldl_progressLog (provider lang : String) (z : Nat)
    (fetch : Nat × Nat → Option Bytes) (coords : List (Nat × Nat)) :
    ∀ st : RunState,
      (coords.foldl (tileTask provider lang z fetch) st).progressLog
      = st.progressLog
        ++ (List.range' (st.completed + 1)
            ((coords.foldl (tileTask provider lang z fetch) st).completed - st.completed)).map
          (fun i => (i, st.total)) := by
  induction coords with
  | nil => intro st; simp
  | cons c cs ih =>
    intro st
    rw [List.foldl_cons]
    rcases tileTask_progress_cases provider lang z fetch st c with ⟨h1, h2, _⟩ | ⟨h1, h2, _⟩
    · have hmono := foldl_completed_mono provider lang z fetch cs
        (tileTask provider lang z fetch st c)
      rw [h1] at hmono
      have hk : (cs.foldl (tileTask provider lang z fetch)
            (tileTask provider lang z fetch st c)).completed - st.completed
          = ((cs.foldl (tileTask provider lang z fetch)
            (tileTask provider lang z fetch st c)).completed - (st.completed + 1)) + 1 := by
        omega
      rw [ih, h2, h1, tileTask_total, hk, List.range'_succ]
      simp
    · rw [ih, h2, h1, tileTask_total]

/-- C5 counterexample: the claim says the completed counter is
incremented and a progress report emitted after every attempt including
failures, reaching `totalTiles`; but with a single enumerated tile whose
fetch fails, the run makes 1 attempt with `totalTiles = 1` while the
counter stays 0 and no progress report is emitted. -/
theorem C5_counterexample :
    (downloadTilesForZoom "google" "ru" 0 (fun _ _ => true) 6 (fun _ => none)
        (RunState.mk [] [] 0 0 0 [] [])).attempted.length = 1
    ∧ (downloadTilesForZoom "google" "ru" 0 (fun _ _ => true) 6 (fun _ => none)
        (RunState.mk [] [] 0 0 0 [] [])).total = 1
    ∧ (downloadTilesForZoom "google" "ru" 0 (fun _ _ => true) 6 (fun _ => none)
        (RunState.mk [] [] 0 0 0 [] [])).completed = 0
    ∧ (downloadTilesForZoom "google" "ru" 0 (fun _ _ => true) 6 (fun _ => none)
        (RunState.mk [] [] 0 0 0 [] [])).progressLog = [] := by
  decide

/-- C5 (amended): after every successful or skipped tile attempt the
completed counter is incremented by exactly one and a progress report
`(completedTiles, totalTiles)` is emitted; a failed attempt instead
appends one ledger record and neither increments the counter nor
reports.  Hence `completed + (ledger growth) = attempts`, the counter
reaches `totalTiles` exactly when no attempt failed, and the emitted
progress values are `1, 2, ..., completed` over the constant total —
monotonically non-decreasing. -/
theorem C5_progress_accounting (provider lang : String) (z : Nat)
    (inB : Nat → Nat → Bool) (maxThreads : Nat) (fetch : Nat × Nat → Option Bytes)
    (st : RunState) :
    (downloadTilesForZoom provider lang z inB maxThreads fetch st).completed
        + (downloadTilesForZoom provider lang z inB maxThreads fetch st).ledger.length
      = st.ledger.length + (enumTiles z inB).length
    ∧ (downloadTilesForZoom provider lang z inB maxThreads fetch st).total
      = (enumTiles z inB).length
    ∧ (downloadTilesForZoom provider lang z inB maxThreads fetch st).progressLog
      = st.progressLog
        ++ (List.range' 1
            (downloadTilesForZoom provider lang z inB maxThreads fetch st).completed).map
          (fun i => (i, (enumTiles z inB).length)) := by
  rw [downloadTilesForZoom_eq_foldl]
  refine ⟨?_, ?_, ?_⟩
  · have h := foldl_conserve provider lang z fetch (enumTiles z inB)
      { st with total := (enumTiles z inB).length, completed := 0 }
    simpa using h
  · rw [foldl_total]
  · have h := foldl_progressLog provider lang z fetch (enumTiles z inB)
      { st with total := (enumTiles z inB).length, completed := 0 }
    simpa using h

/-! ## Quad-key claims (C6, C10) -/

lemma digitChar_mem_of_lt_four (d : Nat) (hd : d < 4) :
    Nat.digitChar d ∈ (['0', '1', '2', '3'] : List Char) := by
  interval_cases d <;> decide

/-- C6 counterexample: the claim quantifies over every `z` with
`x, y < 2^z`, but JavaScript's `1 << (i - 1)` reduces the shift count
modulo 32, so at `z = 33` with `x = 2^32` (which is `< 2^33`) the
computed key differs from the spec's bit-interleaving formula: the code
yields 33 `'0'` digits while the formula puts a `'1'` in the leading
digit. -/
theorem C6_counterexample :
    2 ^ 32 < 2 ^ 33 ∧ (0 : Nat) < 2 ^ 33
    ∧ quadKey (2 ^ 32) 0 33 ≠ quadKeySpec (2 ^ 32) 0 33 := by
  decide

/-- C6 (amended): for every `x, y, z` with `x, y < 2^z` and `z ≤ 32`
(so that the 32-bit masks of the source cover every tested bit),
`quadKey(x, y, z)` equals the string of `z` base-4 digits whose digit
for bit position `i` (from `z-1` down to `0`) is `bit_i(x) + 2*bit_i(y)`;
in particular `quadKey(0,0,1) = "0"`, `quadKey(1,1,1) = "3"` and
`quadKey(1,0,2) = "01"`. -/
theorem C6_quadKey_interleaving (x y z : Nat) (hx : x < 2 ^ z) (hy : y < 2 ^ z)
    (hz : z ≤ 32) :
    quadKey x y z = quadKeySpec x y z
    ∧ quadKey 0 0 1 = ['0'] ∧ quadKey 1 1 1 = ['3'] ∧ quadKey 1 0 2 = ['0', '1'] := by
  refine ⟨?_, by decide, by decide, by decide⟩
  have h2 : (2 : Nat) ^ z ≤ 2 ^ 32 := Nat.pow_le_pow_right (by norm_num) hz
  exact quadKeyLoop_eq_spec x y (lt_of_lt_of_le hx h2) (lt_of_lt_of_le hy h2) z hz

/-- Witness for C6 at `(x, y, z) = (1, 0, 2)`. -/
theorem C6_quadKey_interleaving_witness :
    quadKey 1 0 2 = quadKeySpec 1 0 2
    ∧ quadKey 0 0 1 = ['0'] ∧ quadKey 1 1 1 = ['3'] ∧ quadKey 1 0 2 = ['0', '1'] :=
  C6_quadKey_interleaving 1 0 2 (by decide) (by decide) (by decide)

/-- C10: for every non-negative `x`, `y` and every `z ≥ 0`, `quadKey`
returns a string of exactly `z` characters, each one of `'0'`-`'3'`, and
the empty string when `z = 0` regardless of `x` and `y`. -/
theorem C10_quadKey_shape (x y z : Nat) :
    (quadKey x y z).length = z
    ∧ (∀ ch ∈ quadKey x y z, ch ∈ (['0', '1', '2', '3'] : List Char))
    ∧ quadKey x y 0 = [] := by
  refine ⟨quadKeyLoop_length x y z, ?_, rfl⟩
  induction z with
  | zero => intro ch h; simp [quadKey, quadKeyLoop] at h
  | succ n ih =>
    intro ch h
    rcases List.mem_cons.mp h with rfl | hmem
    · exact digitChar_mem_of_lt_four _ (quadKeyDigit_lt_four x y (n + 1))
    · exact ih ch hmem

/-! ## Bounds testing over the idealised reals (C7)

`isTileInBounds` (src/index.js lines 226-234; the variant at lines 88-95
is identical except that its caller, not the function, handles the
absent-bounds case with `!bounds || ...`).  JavaScript's IEEE-754 doubles
and `Math.atan`/`Math.sinh` are idealised as real numbers and the exact
`Real.arctan`/`Real.sinh`. -/

structure BoundingBox where
  north : ℝ
  south : ℝ
  east : ℝ
  west : ℝ

/-- Spec-side `tileToGeo` longitude: `lon = x/2^zoom * 360 - 180`. -/
noncomputable def tileToGeoLon (x z : Nat) : ℝ :=
  (x : ℝ) / 2 ^ z * 360 - 180

/-- Spec-side `tileToGeo` latitude: `lat = atan(sinh(π·(1 - 2y/2^zoom))) · 180/π`. -/
noncomputable def tileToGeoLat (y z : Nat) : ℝ :=
  Real.arctan (Real.sinh (Real.pi * (1 - 2 * (y : ℝ) / 2 ^ z))) * 180 / Real.pi

/-- `isTileInBounds(x, y, z, bounds)`: `if (!bounds) return true`, then
the conjunction of the four comparisons of the computed `lat_deg` and
`lon_deg` against the box. -/
def isTileInBounds (x y z : Nat) (bounds : Option BoundingBox) : Prop :=
  match bounds with
  | none => True
  | some b =>
    let n : ℝ := 2 ^ z
    let lon_deg : ℝ := (x : ℝ) / n * 360 - 180
    let lat_rad : ℝ := Real.arctan (Real.sinh (Real.pi * (1 - 2 * (y : ℝ) / n)))
    let lat_deg : ℝ := lat_rad * 180 / Real.pi
    lat_deg ≥ b.south ∧ lat_deg ≤ b.north ∧ lon_deg ≥ b.west ∧ lon_deg ≤ b.east

/-- C7: `isTileInBounds` holds iff the tile's computed latitude lies in
`[south, north]` and its computed longitude lies in `[west, east]`,
where `lon = x/2^z * 360 - 180` and
`lat = atan(sinh(π(1 - 2y/2^z))) * 180/π`; and with the box absent every
tile is considered in bounds. -/
theorem C7_isTileInBounds_iff (x y z : Nat) :
    isTileInBounds x y z none
    ∧ ∀ b : BoundingBox,
        (isTileInBounds x y z (some b)
          ↔ tileToGeoLat y z ∈ Set.Icc b.south b.north
            ∧ tileToGeoLon x z ∈ Set.Icc b.west b.east) := by
  refine ⟨trivial, fun b => ?_⟩
  simp only [isTileInBounds, tileToGeoLat, tileToGeoLon, Set.mem_Icc, ge_iff_le]
  tauto

/-! ## Ledger line format (C9)

JavaScript `line.split(sep)` on the character list of a line:
`''.split(',')` is `['']`, hence the empty list splits to `[[]]`. -/

/-- `String.prototype.split` with a one-character separator, over
character lists. -/
def splitSep (sep : Char) : List Char → List (List Char)
  | [] => [[]]
  | c :: cs =>
    if c = sep then [] :: splitSep sep cs
    else
      match splitSep sep cs with
      | [] => [[c]]
      | f :: rest => (c :: f) :: rest

lemma splitSep_ne_nil (sep : Char) (l : List Char) : splitSep sep l ≠ [] := by
  cases l with
  | nil => simp [splitSep]
  | cons c cs =>
    unfold splitSep
    split
    · simp
    · split <;> simp

lemma splitSep_of_not_mem (sep : Char) (l : List Char) (hl : sep ∉ l) :
    splitSep sep l = [l] := by
  induction l with
  | nil => rfl
  | cons c cs ih =>
    have hc : ¬ c = sep := fun h => hl (h ▸ List.mem_cons_self c cs)
    have hcs : sep ∉ cs := fun h => hl (List.mem_cons_of_mem _ h)
    unfold splitSep
    rw [if_neg hc, ih hcs]

lemma splitSep_append (sep : Char) (f rest : List Char) (hf : sep ∉ f) :
    splitSep sep (f ++ sep :: rest) = f :: splitSep sep rest := by
  induction f with
  | nil => simp [splitSep]
  | cons c f' ih =>
    have hc : ¬ c = sep := fun h => hf (h ▸ List.mem_cons_self c f')
    have hf' : sep ∉ f' := fun h => hf (List.mem_cons_of_mem _ h)
    rw [List.cons_append]
    conv_lhs => rw [splitSep]
    rw [if_neg hc, ih hf']

/-- C9 counterexample: the claim says every record appended to the
failure ledger on a fetch-or-store failure has five comma-separated
fields including the locale; but `downloadTilesParallel` (src/index.js
line 146) appends `provider,z,x,y` — running it over one tile whose
fetch fails leaves a ledger record of four fields. -/
theorem C9_counterexample :
    (downloadTilesParallel "google" 0 (fun _ _ => true) 6 (fun _ => none)
        (RunState.mk [] [] 0 0 0 [] [])).ledger = [lineParallel "google" 0 0 0]
    ∧ (splitSep ',' (lineParallel "google" 0 0 0)).length ≠ 5 := by
  decide

/-- C9 (amended): records appended by `downloadTilesForZoom` have the
five comma-separated fields `provider,zoom,x,y,locale` and parse back by
splitting on commas, provided the provider and locale values contain no
comma; records appended by `downloadTilesParallel` (and `logFailedTile`
of the retry script) have only the four fields `provider,zoom,x,y`,
without the locale. -/
theorem C9_ledger_line_fields (provider lang : String) (z x y : Nat)
    (hp : ',' ∉ provider.data) (hl : ',' ∉ lang.data)
    (hz : ',' ∉ natChars z) (hx : ',' ∉ natChars x) (hy : ',' ∉ natChars y) :
    splitSep ',' (lineForZoom provider z x y lang)
      = [provider.data, natChars z, natChars x, natChars y, lang.data]
    ∧ splitSep ',' (lineParallel provider z x y)
      = [provider.data, natChars z, natChars x, natChars y] := by
  constructor
  · unfold lineForZoom
    rw [splitSep_append ',' _ _ hp, splitSep_append ',' _ _ hz,
      splitSep_append ',' _ _ hx, splitSep_append ',' _ _ hy,
      splitSep_of_not_mem ',' _ hl]
  · unfold lineParallel
    rw [splitSep_append ',' _ _ hp, splitSep_append ',' _ _ hz,
      splitSep_append ',' _ _ hx, splitSep_of_not_mem ',' _ hy]

/-- Witness for C9 at `provider = "google"`, `lang = "ru"`, `(z,x,y) = (12, 3, 4)`. -/
theorem C9_ledger_line_fields_witness :
    splitSep ',' (lineForZoom "google" 12 3 4 "ru")
      = ["google".data, natChars 12, natChars 3, natChars 4, "ru".data]
    ∧ splitSep ',' (lineParallel "google" 12 3 4)
      = ["google".data, natChars 12, natChars 3, natChars 4] :=
  C9_ledger_line_fields "google" "ru" 12 3 4 (by decide) (by decide) (by decide)
    (by decide) (by decide)

/-! ## Retry passes over the failure ledger (C2)

`processFailedTiles` (src/index.js lines 309-349) reads
`failed_tiles.log`, retries every record through `saveTile`, logs
re-failures only to the rotating progress log, and finally
`fs.unlinkSync`s the ledger unconditionally.  `retryFailedTiles`
(src/unnamed/part_001 lines 88-113) retries each record through that
file's `saveTile`, which catches its own errors (appending a four-field
line via `logFailedTile`) and never rethrows, so `remainingFailedTiles`
stays empty and the final `writeFileSync` overwrites the ledger with the
empty join.  The ledger file is `none` when absent, `some content`
otherwise. -/

/-- JavaScript `String.prototype.trim` over characters. -/
def trimChars (l : List Char) : List Char :=
  ((l.dropWhile Char.isWhitespace).reverse.dropWhile Char.isWhitespace).reverse

/-- `parseInt` on the canonical decimal digit strings the ledger holds. -/
def toNatDigits (l : List Char) : Nat :=
  l.foldl (fun n c => n * 10 + (c.toNat - 48)) 0

structure RetryState where
  /-- Content of `failed_tiles.log`; `none` when the file is absent. -/
  ledgerFile : Option (List Char)
  /-- The tile store, as in `RunState`. -/
  store : List (StoreKey × Bytes)
  /-- `completedTiles` of the retry pass. -/
  retryCompleted : Nat
deriving DecidableEq

/-- `processFailedTiles` (src/index.js lines 309-349): read and split the
ledger, retry each record through `saveTile` (exists-check, then fetch),
count successes, log re-failures only, then `unlinkSync` the ledger. -/
def processFailedTiles (fetch : StoreKey → Option Bytes) (s : RetryState) : RetryState :=
  match s.ledgerFile with
  | none => s
  | some content =>
    let failedTiles := splitSep '\n' (trimChars content)
    if failedTiles.length = 0 then s
    else
      let s' := failedTiles.foldl (fun st line =>
        let fields := splitSep ',' line
        let providerName := (fields.getD 0 []).asString
        let z := toNatDigits (fields.getD 1 [])
        let x := toNatDigits (fields.getD 2 [])
        let y := toNatDigits (fields.getD 3 [])
        let key : StoreKey := (providerName, z, x, y)
        if (st.store.lookup key).isSome then
          { st with retryCompleted := st.retryCompleted + 1 }
        else
          match fetch key with
          | some bytes =>
            { st with store := st.store ++ [(key, bytes)],
                      retryCompleted := st.retryCompleted + 1 }
          | none => st) s
      { s' with ledgerFile := none }

/-- `retryFailedTiles` (src/unnamed/part_001 lines 88-113): retry each
record through part_001's `saveTile`, which has no exists-check and on
failure appends a four-field line to `failed_tiles.log` without
rethrowing; the final `writeFileSync` then overwrites the ledger with
`remainingFailedTiles.join` — always the empty string. -/
def retryFailedTiles001 (fetch : StoreKey → Option Bytes) (s : RetryState) : RetryState :=
  match s.ledgerFile with
  | none => s
  | some content =>
    let failedTiles := splitSep '\n' (trimChars content)
    let s' := failedTiles.foldl (fun st line =>
      let fields := splitSep ',' line
      let provider := (fields.getD 0 []).asString
      let z := toNatDigits (fields.getD 1 [])
      let x := toNatDigits (fields.getD 2 [])
      let y := toNatDigits (fields.getD 3 [])
      let key : StoreKey := (provider, z, x, y)
      match fetch key with
      | some bytes => { st with store := st.store ++ [(key, bytes)] }
      | none =>
        { st with ledgerFile := some ((st.ledgerFile.getD []) ++ lineParallel provider z x y ++ ['\n']) }) s
    { s' with ledgerFile := some [] }

/-- C2: the claim (matching part_001's own comments — "overwrite the log
with only the remaining failed attempts") says a retry pass leaves the
ledger holding exactly the records that failed again; but both retry
implementations lose them.  With two records of which one fails again,
`processFailedTiles` deletes the ledger outright (`unlinkSync`), and
with one re-failing record `retryFailedTiles` leaves the ledger as the
empty string — in both runs the store shows the failing record was
indeed not fetched. -/
theorem C2_retry_pass_drops_refailed_records :
    (processFailedTiles
        (fun k => if k = ("google", 1, 1, 0) then none else some [9])
        (RetryState.mk
          (some (lineForZoom "google" 1 0 0 "ru" ++
            '\n' :: (lineForZoom "google" 1 1 0 "ru" ++ ['\n'])))
          [] 0)).ledgerFile = none
    ∧ (processFailedTiles
        (fun k => if k = ("google", 1, 1, 0) then none else some [9])
        (RetryState.mk
          (some (lineForZoom "google" 1 0 0 "ru" ++
            '\n' :: (lineForZoom "google" 1 1 0 "ru" ++ ['\n'])))
          [] 0)).store.lookup ("google", 1, 1, 0) = none
    ∧ (processFailedTiles
        (fun k => if k = ("google", 1, 1, 0) then none else some [9])
        (RetryState.mk
          (some (lineForZoom "google" 1 0 0 "ru" ++
            '\n' :: (lineForZoom "google" 1 1 0 "ru" ++ ['\n'])))
          [] 0)).store.lookup ("google", 1, 0, 0) = some [9]
    ∧ (retryFailedTiles001 (fun _ => none)
        (RetryState.mk (some (lineParallel "google" 1 0 0 ++ ['\n'])) [] 0)).ledgerFile
      = some []
    ∧ (retryFailedTiles001 (fun _ => none)
        (RetryState.mk (some (lineParallel "google" 1 0 0 ++ ['\n'])) [] 0)).store
      = [] := by
  decide

/-! ## Tile-store write plan and crash visibility (C8)

`saveTile` (src/index.js lines 246-256; src/unnamed/part_001 lines
57-68 is the same plan) performs, after the fetch resolves,
`fs.mkdirSync(outputDir, { recursive: true })` followed by
`fs.writeFileSync(outputFile, data)` — a direct write to the final tile
path.  The file system is a path→bytes map; a crash may stop the
operation sequence between operations or in the middle of a write,
leaving any strict prefix of the bytes at the written path. -/

inductive FsOp where
  | mkdirRec (dir : List String)
  | write (file : List String) (bytes : Bytes)
  | rename (src dst : List String)
deriving DecidableEq

/-- Files on disk: path segments → bytes. -/
abbrev Fs := List (List String × Bytes)

def applyOp (fs : Fs) : FsOp → Fs
  | .mkdirRec _ => fs
  | .write p b => (fs.filter fun e => e.1 != p) ++ [(p, b)]
  | .rename src dst =>
    match fs.lookup src with
    | some b => (fs.filter fun e => e.1 != src && e.1 != dst) ++ [(dst, b)]
    | none => fs

/-- All strict prefixes of a byte string (the possible on-disk contents
when a crash interrupts the write of `b`). -/
def strictPrefixes (b : Bytes) : List Bytes :=
  (List.range b.length).map fun i => b.take i

/-- File states visible if a crash lands inside one operation. -/
def partialStates (fs : Fs) : FsOp → List Fs
  | .write p b => (strictPrefixes b).map fun pre => applyOp fs (.write p pre)
  | _ => []

/-- All file states visible at some crash point while running `ops`. -/
def crashStates (fs : Fs) : List FsOp → List Fs
  | [] => [fs]
  | op :: ops => fs :: (partialStates fs op ++ crashStates (applyOp fs op) ops)

/-- `path.join('tiles', provider, z.toString(), x.toString())`. -/
def tileDir (provider : String) (z x : Nat) : List String :=
  ["tiles", provider, Nat.repr z, Nat.repr x]

/-- `path.join(outputDir, y + ".png")`. -/
def tilePath (provider : String) (z x y : Nat) : List String :=
  tileDir provider z x ++ [Nat.repr y ++ ".png"]

/-- The file-system operations `saveTile` performs once the fetch has
resolved: recursive directory create, then one direct write to the
final tile path. -/
def saveTileOps (provider : String) (z x y : Nat) (bytes : Bytes) : List FsOp :=
  [.mkdirRec (tileDir provider z x), .write (tilePath provider z x y) bytes]

/-- C8 counterexample: the claim says no crash point leaves a partial
file at the final tile path that the exists check would report as a
complete tile; but `saveTile` writes directly to the final path, and the
crash state that wrote only the first byte of `[1, 2]` is reachable,
visible to `exists`, and not the full content. -/
theorem C8_counterexample :
    applyOp [] (.write (tilePath "google" 1 2 3) [1])
      ∈ crashStates [] (saveTileOps "google" 1 2 3 [1, 2])
    ∧ ((applyOp [] (.write (tilePath "google" 1 2 3) [1])).lookup
        (tilePath "google" 1 2 3)).isSome
    ∧ (applyOp [] (.write (tilePath "google" 1 2 3) [1])).lookup (tilePath "google" 1 2 3)
      ≠ some [1, 2] := by
  decide

/-- C8 (amended): saving a tile first ensures the intermediate
directories exist (recursive, idempotent create) and then writes the
bytes directly to the final tile path in a single write — there is no
temp-path-then-rename step — so for any non-empty tile content a crash
mid-write can leave a partial file at the final tile path that the
exists check reports as a cached tile. -/
theorem C8_save_writes_directly (provider : String) (z x y : Nat) (bytes : Bytes)
    (h : bytes ≠ []) :
    saveTileOps provider z x y bytes
      = [.mkdirRec (tileDir provider z x), .write (tilePath provider z x y) bytes]
    ∧ (∀ op ∈ saveTileOps provider z x y bytes, ∀ src dst, op ≠ .rename src dst)
    ∧ applyOp [] (.write (tilePath provider z x y) [])
        ∈ crashStates [] (saveTileOps provider z x y bytes)
    ∧ ((applyOp [] (.write (tilePath provider z x y) [])).lookup
        (tilePath provider z x y)).isSome
    ∧ (applyOp [] (.write (tilePath provider z x y) [])).lookup (tilePath provider z x y)
      ≠ some bytes := by
  have hlen : 0 < bytes.length := List.length_pos.mpr h
  have hpre : ([] : Bytes) ∈ strictPrefixes bytes := by
    unfold strictPrefixes
    exact List.mem_map.mpr ⟨0, List.mem_range.mpr hlen, rfl⟩
  have happly : applyOp [] (.write (tilePath provider z x y) [])
      = [(tilePath provider z x y, ([] : Bytes))] := rfl
  refine ⟨rfl, ?_, ?_, ?_, ?_⟩
  · intro op hop src dst
    rcases List.mem_cons.mp hop with rfl | hop
    · exact fun hEq => FsOp.noConfusion hEq
    · rcases List.mem_cons.mp hop with rfl | hop
      · exact fun hEq => FsOp.noConfusion hEq
      · simp at hop
  · show _ ∈ crashStates [] (saveTileOps provider z x y bytes)
    unfold saveTileOps crashStates partialStates
    refine List.mem_cons_of_mem _ ?_
    refine List.mem_append.mpr (Or.inr ?_)
    show _ ∈ crashStates (applyOp [] (.mkdirRec (tileDir provider z x)))
      [.write (tilePath provider z x y) bytes]
    unfold crashStates partialStates
    refine List.mem_cons_of_mem _ ?_
    refine List.mem_append.mpr (Or.inl ?_)
    exact List.mem_map.mpr ⟨[], hpre, rfl⟩
  · rw [happly, lookup_single_self]
    rfl
  · rw [happly, lookup_single_self]
    intro hEq
    exact h (Option.some.injEq _ _ ▸ hEq).symm

/-- Witness for C8 at `bytes = [7, 8]`. -/
theorem C8_save_writes_directly_witness :
    saveTileOps "osm" 4 5 6 [7, 8]
      = [.mkdirRec (tileDir "osm" 4 5), .write (tilePath "osm" 4 5 6) [7, 8]]
    ∧ (∀ op ∈ saveTileOps "osm" 4 5 6 [7, 8], ∀ src dst, op ≠ .rename src dst)
    ∧ applyOp [] (.write (tilePath "osm" 4 5 6) [])
        ∈ crashStates [] (saveTileOps "osm" 4 5 6 [7, 8])
    ∧ ((applyOp [] (.write (tilePath "osm" 4 5 6) [])).lookup (tilePath "osm" 4 5 6)).isSome
    ∧ (applyOp [] (.write (tilePath "osm" 4 5 6) [])).lookup (tilePath "osm" 4 5 6)
      ≠ some [7, 8] :=
  C8_save_writes_directly "osm" 4 5 6 [7, 8] (by decide)

end TilesMaps
